import Mathlib

/-!
Verification of the debot repository's scripts: the random-forest price
pipeline (scripts/random_forest.py), the LSTM pipeline (scripts/lstm.py)
and the AES-CBC encryption tool (encrypt.py, scripts/encrypt.py).

Data frames are shallowly embedded column-major: a cell is an optional
rational (missing values, pandas NaN, are modelled as none), a column is a
list of cells over the shared time index, and a frame is a list of named
columns.
-/

namespace Debot

/-- Decidable equality of Except values, so that counterexamples can be
settled by evaluation. -/
instance exceptDecEq {ε α : Type} [DecidableEq ε] [DecidableEq α] :
    DecidableEq (Except ε α) := fun x y =>
  match x, y with
  | Except.ok a, Except.ok b =>
    if h : a = b then isTrue (by rw [h]) else isFalse fun he => by cases he; exact h rfl
  | Except.error a, Except.error b =>
    if h : a = b then isTrue (by rw [h]) else isFalse fun he => by cases he; exact h rfl
  | Except.ok _, Except.error _ => isFalse fun he => Except.noConfusion he
  | Except.error _, Except.ok _ => isFalse fun he => Except.noConfusion he

/-- A data-frame cell: none models a missing value (NaN). -/
abbrev Cell := Option ℚ

/-- A data-frame column, ordered by the time index. -/
abbrev Col := List Cell

/-- A data frame: named columns over a shared time index, column-major. -/
structure Frame where
  cols : List (String × Col)
deriving DecidableEq

/-- The number of rows of a frame (the length of its first column; every
frame built by the pipeline has columns of one shared length). -/
def Frame.rowCount (f : Frame) : ℕ :=
  match f.cols with
  | [] => 0
  | c :: _ => c.2.length

/-- The number of columns of a frame. -/
def Frame.colCount (f : Frame) : ℕ := f.cols.length

/-- Whether any axis of the frame has length 0 (pandas DataFrame.empty). -/
def Frame.isEmpty (f : Frame) : Bool := f.cols.isEmpty || f.rowCount == 0

/-- Row i of a frame, across all columns (features.iloc. .values in the
source); an out-of-range index yields missing cells. -/
def Frame.row (f : Frame) (i : ℕ) : List Cell :=
  f.cols.map fun c => c.2.getD i none

/-- The pandas Series.shift i: the first i entries become missing, the
remaining values move down by i; the length is kept. -/
def shiftCol (i : ℕ) (c : Col) : Col :=
  List.replicate (min i c.length) none ++ c.take (c.length - i)

/-- The cells of the width N window ending at row j (rows j+1-N .. j). -/
def window (c : Col) (N j : ℕ) : List Cell :=
  (c.take (j + 1)).drop (j + 1 - N)

/-- The pandas Series.rolling(window=N).mean(): missing until N rows are
available, and whenever the window holds a missing value. -/
def rollingMean (N : ℕ) (c : Col) : Col :=
  (List.range c.length).map fun j =>
    if j + 1 < N then none
    else
      let w := window c N j
      if w.all Option.isSome then some (((w.map fun x => x.getD 0).sum) / (N : ℚ))
      else none

/-- Forward fill (fillna ffill): a missing cell takes the nearest earlier
value, when one exists; the first argument carries that value. -/
def ffillFrom : Cell → Col → Col
  | _, [] => []
  | last, none :: rest => last :: ffillFrom last rest
  | _, some v :: rest => some v :: ffillFrom (some v) rest

/-- Forward fill of a column. -/
def ffillCol (c : Col) : Col := ffillFrom none c

/-- Backward fill of a column: forward fill of the reversed column. -/
def bfillCol (c : Col) : Col := (ffillFrom none c.reverse).reverse

/-- The pandas Series.pct_change(): missing values are first padded forward
(the default fill_method), then row j holds current over previous minus one;
the first row is missing.  (Division by a zero previous value, a float
infinity in pandas, is the total rational division here; no claim below
depends on that value.) -/
def pctChange (c : Col) : Col :=
  let p := ffillCol c
  (List.range c.length).map fun j =>
    if j = 0 then none
    else
      match p.getD (j - 1) none, p.getD j none with
      | some a, some b => some (b / a - 1)
      | _, _ => none

/-- The per-token feature block of create_features: the lag columns for lags
1..N in order, then the moving-average column, then the rate-of-change
column, exactly as the source builds the per-token DataFrame. -/
def tokenLags (token : String) (c : Col) (N : ℕ) : List (String × Col) :=
  ((List.range N).map fun i =>
    (token ++ "_lag_" ++ toString (i + 1), shiftCol (i + 1) c))
  ++ [(token ++ "_moving_average", rollingMean N c),
      (token ++ "_rate_of_change", pctChange c)]

/-- The gap-resolution step of create_features (line 58 of
scripts/random_forest.py): forward fill then backward fill, column by
column. -/
def fillFrame (f : Frame) : Frame :=
  ⟨f.cols.map fun c => (c.1, bfillCol (ffillCol c.2))⟩

/-- Function create_features(data, past_data_points) of
scripts/random_forest.py: the per-token lag, moving-average and
rate-of-change blocks, concatenated column-wise over all tokens, then gaps
resolved by forward fill followed by backward fill.  The two print
statements of the source only log NaN counts and have no effect on the
result.  Note the source drops no rows here: trimming to rows at index at
least past_data_points happens later, in train_model and predict. -/
def create_features (data : Frame) (past_data_points : ℕ) : Frame :=
  fillFrame ⟨(data.cols.map fun tc => tokenLags tc.1 tc.2 past_data_points).flatten⟩

/-- The predictions list accumulated by predict(data, features,
past_data_points, future_time_steps) of scripts/random_forest.py: the loop
runs i over range(past_data_points, len(features) - future_time_steps),
transforms row i through the scaler, and appends a model prediction exactly
when i + future_time_steps < len(features).  A negative Python upper bound
gives an empty range, as does the truncated natural subtraction here. -/
def predictions (model : List Cell → ℚ) (scaler : List Cell → List Cell)
    (features : Frame) (past_data_points future_time_steps : ℕ) : List ℚ :=
  ((List.range (features.rowCount - future_time_steps)).drop past_data_points).filterMap
    fun i =>
      let X_new := scaler (features.row i)
      if i + future_time_steps < features.rowCount then some (model X_new) else none

/-- Function predict of scripts/random_forest.py, with the model and scaler
loaded from GridFS abstracted as functions (pickle persistence is outside
the embedding): it returns the final element of the predictions list,
raising IndexError when that list is empty. -/
def predict (model : List Cell → ℚ) (scaler : List Cell → List Cell)
    (features : Frame) (past_data_points future_time_steps : ℕ) : Except String ℚ :=
  match (predictions model scaler features past_data_points future_time_steps).getLast? with
  | some p => Except.ok p
  | none => Except.error "IndexError: list index out of range"

/-! The data loader of scripts/random_forest.py (load_data_from_mongodb):
documents are filtered by trader name and timestamp cutoff, sorted ascending
by timestamp, pivoted into one column per token, and resampled onto a
one-second grid with linear interpolation.  Timestamps are epoch seconds. -/

/-- The price_point subdocument of a stored price observation. -/
structure PricePoint where
  timestamp : ℕ
  price : ℚ
deriving DecidableEq

/-- A stored price document, shaped as the store holds it. -/
structure PriceDoc where
  trader_name : String
  token_name : String
  price_point : PricePoint
deriving DecidableEq

/-- The find filter of the loader: trader_name equals BSC-AlgoTrader and
price_point.timestamp is at least now minus past_minutes minutes.  The
cutoff is computed in the integers, as the Python difference of epoch
timestamps may be negative. -/
def selectDocs (docs : List PriceDoc) (now : ℤ) (past_minutes : ℕ) : List PriceDoc :=
  docs.filter fun d =>
    d.trader_name == "BSC-AlgoTrader"
      && decide (now - 60 * past_minutes ≤ (d.price_point.timestamp : ℤ))

/-- Ascending order on documents by price_point.timestamp. -/
def tsLE (a b : PriceDoc) : Prop :=
  a.price_point.timestamp ≤ b.price_point.timestamp

instance : DecidableRel tsLE := fun _ _ => Nat.decLe _ _

instance : IsTotal PriceDoc tsLE := ⟨fun _ _ => Nat.le_total _ _⟩

instance : IsTrans PriceDoc tsLE := ⟨fun _ _ _ h1 h2 => Nat.le_trans h1 h2⟩

/-- The ascending sort on price_point.timestamp applied by the query. -/
def sortDocs (docs : List PriceDoc) : List PriceDoc :=
  docs.insertionSort tsLE

/-- The pivot's column labels: the distinct token names of the selected
documents (pandas orders them; only the set matters to the claims). -/
def tokenColumns (docs : List PriceDoc) : List String :=
  (docs.map fun d => d.token_name).dedup

/-- The timestamp-price observations of one token, in document order. -/
def obsOf (docs : List PriceDoc) (tok : String) : List (ℕ × ℚ) :=
  (docs.filter fun d => d.token_name == tok).map fun d =>
    (d.price_point.timestamp, d.price_point.price)

/-- The nearest observation at or before time t. -/
def prevObs (obs : List (ℕ × ℚ)) (t : ℕ) : Option (ℕ × ℚ) :=
  (obs.filter fun o => o.1 ≤ t).getLast?

/-- The nearest observation at or after time t. -/
def nextObs (obs : List (ℕ × ℚ)) (t : ℕ) : Option (ℕ × ℚ) :=
  (obs.filter fun o => t ≤ o.1).head?

/-- Linear interpolation at time t from a token's observations, as pandas
resample plus interpolate leaves a column: an observed time keeps its value,
a time between two observations takes the time-weighted linear mix, a time
after the last observation repeats the last value, and a time before the
first observation stays missing. -/
def interpAt (obs : List (ℕ × ℚ)) (t : ℕ) : Option ℚ :=
  match prevObs obs t, nextObs obs t with
  | some o₁, some o₂ =>
      if o₁.1 = o₂.1 then some o₁.2
      else some (o₁.2 + (o₂.2 - o₁.2) * ((t : ℚ) - o₁.1) / ((o₂.1 : ℚ) - o₁.1))
  | some o₁, none => some o₁.2
  | none, _ => none

/-- The uniform one-second index produced by resample: every second from the
earliest to the latest selected timestamp. -/
def gridOf (docs : List PriceDoc) : List ℕ :=
  match docs.map fun d => d.price_point.timestamp with
  | [] => []
  | t :: ts => List.range' (ts.foldl min t) (ts.foldl max t + 1 - ts.foldl min t)

/-- Function load_data_from_mongodb(past_minutes) of
scripts/random_forest.py, over an explicit document list (the MongoDB
connection is outside the embedding): filter, sort ascending by timestamp,
pivot one column per distinct token, resample to the one-second grid and
interpolate.  The Python code raises on an empty selection (column access on
an empty frame) and on duplicate timestamp-token pairs (pivot); the theorems
below assume neither, per the failure modes the spec acknowledges. -/
def load_data_from_mongodb (docs : List PriceDoc) (now : ℤ) (past_minutes : ℕ) : Frame :=
  let sorted := sortDocs (selectDocs docs now past_minutes)
  let grid := gridOf sorted
  ⟨(tokenColumns sorted).map fun tok => (tok, grid.map fun t => interpAt (obsOf sorted tok) t)⟩

/-! The LSTM pipeline of scripts/lstm.py: the empty-frame guard of
preprocess_data, the min-max scaling, the window dataset, and the main
dispatch whose train and predict branches unpack the five returned values
into three names. -/

/-- The minimum of the present values of a column (sklearn ignores missing
values when fitting); 0 for a column with no present value. -/
def colMin (c : Col) : ℚ :=
  match c.filterMap id with
  | [] => 0
  | x :: xs => xs.foldl min x

/-- The maximum of the present values of a column; 0 when none exists. -/
def colMax (c : Col) : ℚ :=
  match c.filterMap id with
  | [] => 0
  | x :: xs => xs.foldl max x

/-- One cell scaled to feature range 0..1: value minus minimum over maximum
minus minimum; missing stays missing. -/
def scaleCell (mn mx : ℚ) : Cell → Cell
  | none => none
  | some v => some ((v - mn) / (mx - mn))

/-- The MinMaxScaler fit_transform over a frame, column by column. -/
def minmaxTransform (data : Frame) : Frame :=
  ⟨data.cols.map fun c => (c.1, c.2.map (scaleCell (colMin c.2) (colMax c.2)))⟩

/-- A Python exception, discriminated by kind, as the LSTM pipeline can
raise them. -/
inductive PyErr where
  | valueError (msg : String)
  | keyError (key : String)
  | indexError
  | typeError
deriving DecidableEq

/-- Function prepare_dataset(data, look_back, future_minutes, token_name) of
scripts/lstm.py: future_time_steps is future_minutes times six; for each i
in range(len(data) - look_back - future_time_steps), X gets the look_back
rows starting at i and Y gets the token's value at row
i + look_back + future_time_steps.  The Y access
data.iloc[i + look_back + future_time_steps][token_name] raises KeyError on
its first execution when the token is not among the columns — so exactly
when the loop range is non-empty; its row index always stays in bounds by
the loop bound, so no other access can raise. -/
def prepare_dataset (data : Frame) (look_back future_minutes : ℕ) (token : String) :
    Except PyErr (List (List (List Cell)) × List Cell) :=
  let fts := future_minutes * 6
  let n := data.rowCount - look_back - fts
  match data.cols.find? fun c => c.1 == token with
  | some tcol =>
    Except.ok
      ((List.range n).map fun i => (List.range look_back).map fun j => data.row (i + j),
       (List.range n).map fun i => tcol.2.getD (i + look_back + fts) none)
  | none =>
    if n = 0 then Except.ok ([], [])
    else Except.error (PyErr.keyError token)

/-- A Python value as the LSTM script's tuples carry them: a fitted scaler
(its per-column minima and maxima), a three-dimensional array, or a
one-dimensional array. -/
inductive PyObj where
  | scalerObj (mins maxs : List ℚ)
  | arr3 (a : List (List (List Cell)))
  | arr1 (a : List Cell)
deriving DecidableEq

/-- Function preprocess_data(data, look_back, future_minutes, token_name) of
scripts/lstm.py: raise the explicit ValueError when the input frame is
empty, otherwise scale, build the window dataset — propagating its
missing-token KeyError — split at int(len(X) * 0.8) and return the five
values scaler, trainX, trainY, testX, testY as a Python tuple (a list here,
so that call sites can unpack it).  The 0.8 split is the exact 8 * len / 10
here; Python truncates the float product the same way for every list length
the script can see. -/
def preprocess_data (data : Frame) (look_back future_minutes : ℕ) (token : String) :
    Except PyErr (List PyObj) :=
  if data.isEmpty then
    Except.error (PyErr.valueError
      "The input data frame is empty. Please check if the data is loaded correctly.")
  else
    let data_scaled := minmaxTransform data
    match prepare_dataset data_scaled look_back future_minutes token with
    | Except.error e => Except.error e
    | Except.ok XY =>
      let train_size := 8 * XY.1.length / 10
      Except.ok
        [PyObj.scalerObj (data.cols.map fun c => colMin c.2) (data.cols.map fun c => colMax c.2),
         PyObj.arr3 (XY.1.take train_size), PyObj.arr1 (XY.2.take train_size),
         PyObj.arr3 (XY.1.drop train_size), PyObj.arr1 (XY.2.drop train_size)]

/-- Python tuple unpacking into three names, a, b, c = t: succeeds exactly
on a three-element tuple, and raises ValueError otherwise. -/
def unpack3 (l : List PyObj) : Except PyErr (PyObj × PyObj × PyObj) :=
  match l with
  | [a, b, c] => Except.ok (a, b, c)
  | _ =>
    if 3 < l.length then
      Except.error (PyErr.valueError "too many values to unpack (expected 3)")
    else Except.error (PyErr.valueError "not enough values to unpack")

/-- What a completed run of the LSTM script's main block would produce. -/
inductive MainOutcome where
  | trained
  | predicted (v : ℚ)
deriving DecidableEq

/-- The train and predict branches of the main block of scripts/lstm.py,
with the Keras model abstracted as a function: each branch calls
preprocess_data and then unpacks the returned tuple into the three names
scaler, trainX, trainY; fitting (train) or predicting on the last window
(predict) comes only after a successful unpack, so the code past the unpack
is unreachable and is modelled by its intended outcome. -/
def lstm_main (mode : String) (data : Frame) (look_back future_minutes : ℕ)
    (token : String) (model : List (List Cell) → ℚ) : Except PyErr MainOutcome :=
  if mode = "train" then
    match preprocess_data data look_back future_minutes token with
    | Except.error e => Except.error e
    | Except.ok t =>
      match unpack3 t with
      | Except.error e => Except.error e
      | Except.ok _ => Except.ok MainOutcome.trained
  else if mode = "predict" then
    match preprocess_data data look_back future_minutes token with
    | Except.error e => Except.error e
    | Except.ok t =>
      match unpack3 t with
      | Except.error e => Except.error e
      | Except.ok s =>
        match s.2.1 with
        | PyObj.arr3 xs =>
          match xs.getLast? with
          | some w => Except.ok (MainOutcome.predicted (model w))
          | none => Except.error PyErr.indexError
        | _ => Except.error PyErr.typeError
  else Except.error (PyErr.valueError "unknown mode")

/-! The encryption tool (encrypt.py and scripts/encrypt.py): PKCS number 7
padding, CBC chaining over an abstract block permutation, and base64 of the
initialization vector followed by the ciphertext.  Bytes are naturals,
meaningful below 256. -/

/-- A byte string. -/
abbrev Bytes := List ℕ

/-- The AES block size in bytes. -/
def blockSize : ℕ := 16

/-- PKCS number 7 padding (Crypto.Util.Padding.pad): append p copies of the
byte p, where p is block size minus length modulo block size; p is always
between 1 and 16, so at least one byte is appended. -/
def pad (b : Bytes) : Bytes :=
  let p := blockSize - b.length % blockSize
  b ++ List.replicate p p

/-- PKCS number 7 unpadding: read the last byte p, check 1 ≤ p ≤ 16 and that
the last p bytes all equal p, and drop them; none on malformed padding. -/
def unpad (b : Bytes) : Option Bytes :=
  match b.getLast? with
  | none => none
  | some p =>
    if 1 ≤ p ∧ p ≤ blockSize ∧ p ≤ b.length ∧ ∀ x ∈ b.drop (b.length - p), x = p
    then some (b.take (b.length - p))
    else none

/-- Bytewise exclusive or. -/
def xorBytes (a b : Bytes) : Bytes := List.zipWith (· ^^^ ·) a b

/-- Split a byte string into blocks of the block size (the last block may be
short when the length is not a multiple); fuel-structured so that it reduces
definitionally. -/
def chunksAux : ℕ → Bytes → List Bytes
  | 0, _ => []
  | fuel + 1, b =>
    if b.isEmpty then []
    else b.take blockSize :: chunksAux fuel (b.drop blockSize)

/-- Split a byte string into blocks of the block size. -/
def chunks (b : Bytes) : List Bytes := chunksAux b.length b

/-- CBC encryption of a block sequence: each plaintext block is xored with
the previous ciphertext block (the initialization vector at first) and then
enciphered. -/
def cbcEnc (E : Bytes → Bytes) : Bytes → List Bytes → List Bytes
  | _, [] => []
  | prev, p :: ps =>
    let c := E (xorBytes prev p)
    c :: cbcEnc E c ps

/-- CBC decryption of a block sequence: each ciphertext block is deciphered
and xored with the previous ciphertext block (the initialization vector at
first). -/
def cbcDec (D : Bytes → Bytes) : Bytes → List Bytes → List Bytes
  | _, [] => []
  | prev, c :: cs => xorBytes prev (D c) :: cbcDec D c cs

/-- The base64 alphabet. -/
def b64Alphabet : List Char :=
  ['A', 'B', 'C', 'D', 'E', 'F', 'G', 'H', 'I', 'J', 'K', 'L', 'M',
   'N', 'O', 'P', 'Q', 'R', 'S', 'T', 'U', 'V', 'W', 'X', 'Y', 'Z',
   'a', 'b', 'c', 'd', 'e', 'f', 'g', 'h', 'i', 'j', 'k', 'l', 'm',
   'n', 'o', 'p', 'q', 'r', 's', 't', 'u', 'v', 'w', 'x', 'y', 'z',
   '0', '1', '2', '3', '4', '5', '6', '7', '8', '9', '+', '/']

/-- The base64 character of a six-bit value. -/
def b64Char (n : ℕ) : Char := b64Alphabet.getD n '='

/-- The six-bit value of a base64 character. -/
def b64Val (c : Char) : ℕ := b64Alphabet.indexOf c

/-- Standard base64 encoding of a byte string, three bytes to four
characters, with equals-sign padding on a short final group. -/
def b64encode : Bytes → List Char
  | [] => []
  | [a] => [b64Char (a / 4), b64Char (a % 4 * 16), '=', '=']
  | [a, b] => [b64Char (a / 4), b64Char (a % 4 * 16 + b / 16), b64Char (b % 16 * 4), '=']
  | a :: b :: c :: rest =>
    b64Char (a / 4) :: b64Char (a % 4 * 16 + b / 16) ::
      b64Char (b % 16 * 4 + c / 64) :: b64Char (c % 64) :: b64encode rest

/-- Standard base64 decoding, four characters to three bytes, honouring the
equals-sign padding. -/
def b64decode : List Char → Bytes
  | c₁ :: c₂ :: c₃ :: c₄ :: rest =>
    if c₃ = '=' then [b64Val c₁ * 4 + b64Val c₂ / 16]
    else if c₄ = '=' then
      [b64Val c₁ * 4 + b64Val c₂ / 16, b64Val c₂ % 16 * 16 + b64Val c₃ / 4]
    else
      (b64Val c₁ * 4 + b64Val c₂ / 16) :: (b64Val c₂ % 16 * 16 + b64Val c₃ / 4) ::
        (b64Val c₃ % 4 * 64 + b64Val c₄) :: b64decode rest
  | _ => []

/-- The output of the encryption tool (encrypt.py line 19 to 30,
scripts/encrypt.py line 23 to 38), with the AES block encryption under the
already-decoded key abstracted as E and the random initialization vector
explicit: the printed string is the base64 encoding of the initialization
vector followed by the CBC encryption of the padded payload. -/
def cipherOutput (E : Bytes → Bytes) (iv data : Bytes) : List Char :=
  b64encode (iv ++ (cbcEnc E iv (chunks (pad data))).flatten)

/-- Modelled from the spec: no decryption script exists in the repository;
section 6 and section 8 of the spec describe recovery as base64-decoding the
printed string, splitting off the first block as the initialization vector,
CBC-decrypting the remainder under the same key, and unpadding. -/
def decryptOutput (D : Bytes → Bytes) (out : List Char) : Option Bytes :=
  let raw := b64decode out
  unpad ((cbcDec D (raw.take blockSize) (chunks (raw.drop blockSize))).flatten)

/-! Concrete inputs used by the witness and counterexample theorems. -/

/-- A one-token, three-row price frame. -/
def frameA : Frame := ⟨[("A", [some 1, some 2, some 4])]⟩

/-- A one-token, four-row price frame with pairwise distinct values. -/
def frame4 : Frame := ⟨[("A", [some 1, some 2, some 4, some 8])]⟩

/-- A gap-free two-column frame. -/
def frameFull : Frame := ⟨[("A", [some 1, some 2]), ("B", [some 3, some 4])]⟩

/-- A concrete stand-in for the loaded regression model: the first feature
of the row (free of rational arithmetic, so that it evaluates by
reduction). -/
def modelSum : List Cell → ℚ := fun r => (r.getD 0 none).getD 0

/-- Concrete stored documents: three from the fixed agent (two tokens), one
from another trader. -/
def docsW : List PriceDoc :=
  [⟨"BSC-AlgoTrader", "WBNB", ⟨1000, 10⟩⟩,
   ⟨"Other", "WBNB", ⟨1001, 99⟩⟩,
   ⟨"BSC-AlgoTrader", "ETH", ⟨1002, 20⟩⟩,
   ⟨"BSC-AlgoTrader", "WBNB", ⟨1004, 14⟩⟩]

/-- The all-zero initialization vector. -/
def ivZero : Bytes := List.replicate 16 0

/-- An initialization vector differing from ivZero in its first byte. -/
def ivOne : Bytes := 1 :: List.replicate 15 0

/-! Length facts about the column operations of create_features. -/

theorem ffillFrom_length (last : Cell) (c : Col) : (ffillFrom last c).length = c.length := by
  induction c generalizing last with
  | nil => rfl
  | cons x rest ih => cases x <;> simp [ffillFrom, ih]

theorem ffillCol_length (c : Col) : (ffillCol c).length = c.length :=
  ffillFrom_length none c

theorem bfillCol_length (c : Col) : (bfillCol c).length = c.length := by
  simp [bfillCol, ffillFrom_length]

theorem shiftCol_length (i : ℕ) (c : Col) : (shiftCol i c).length = c.length := by
  simp [shiftCol]
  omega

theorem rollingMean_length (N : ℕ) (c : Col) : (rollingMean N c).length = c.length := by
  simp [rollingMean]

theorem pctChange_length (c : Col) : (pctChange c).length = c.length := by
  simp [pctChange]

theorem tokenLags_length (token : String) (c : Col) (N : ℕ) :
    (tokenLags token c N).length = N + 2 := by
  simp [tokenLags]

theorem tokenLags_ne_nil (token : String) (c : Col) (N : ℕ) :
    tokenLags token c N ≠ [] := by
  simp [tokenLags]

theorem tokenLags_col_length (token : String) (c : Col) (N : ℕ) :
    ∀ p ∈ tokenLags token c N, p.2.length = c.length := by
  intro p hp
  rcases List.mem_append.1 hp with h | h
  · obtain ⟨i, _, rfl⟩ := List.mem_map.1 h
    exact shiftCol_length _ _
  · rcases List.mem_cons.1 h with h1 | h2
    · subst h1; exact rollingMean_length _ _
    · rcases List.mem_cons.1 h2 with h3 | h4
      · subst h3; exact pctChange_length _
      · cases h4

/-- The fill step never changes a frame's shape. -/
theorem fillFrame_rowCount (f : Frame) : (fillFrame f).rowCount = f.rowCount := by
  rcases f with ⟨cols⟩
  cases cols with
  | nil => rfl
  | cons c rest => simp [fillFrame, Frame.rowCount, bfillCol_length, ffillCol_length]

theorem create_features_colCount (data : Frame) (N : ℕ) :
    (create_features data N).colCount = data.colCount * (N + 2) := by
  simp only [create_features, fillFrame, Frame.colCount, List.length_map,
    List.length_flatten]
  rw [List.map_map]
  have h : (data.cols.map (List.length ∘ fun tc => tokenLags tc.1 tc.2 N))
      = data.cols.map (Function.const _ (N + 2)) :=
    List.map_congr_left fun tc _ => tokenLags_length _ _ _
  rw [h, List.map_const, List.sum_replicate, smul_eq_mul]

theorem create_features_rowCount (data : Frame) (N : ℕ) :
    (create_features data N).rowCount = data.rowCount := by
  rcases f : data.cols with _ | ⟨tc, rest⟩
  · simp [create_features, fillFrame, Frame.rowCount, f]
  · obtain ⟨p, ps, hp⟩ := List.exists_cons_of_ne_nil (tokenLags_ne_nil tc.1 tc.2 N)
    have hmem : p ∈ tokenLags tc.1 tc.2 N := by rw [hp]; exact List.mem_cons_self _ _
    have hlen := tokenLags_col_length tc.1 tc.2 N p hmem
    simp [create_features, fillFrame, Frame.rowCount, f, hp,
      bfillCol_length, ffillCol_length, hlen]

theorem create_features_isEmpty (data : Frame) (N : ℕ) :
    (create_features data N).isEmpty = data.isEmpty := by
  rw [Frame.isEmpty, Frame.isEmpty, create_features_rowCount]
  rcases f : data.cols with _ | ⟨tc, rest⟩
  · simp [create_features, fillFrame, f]
  · obtain ⟨p, ps, hp⟩ := List.exists_cons_of_ne_nil (tokenLags_ne_nil tc.1 tc.2 N)
    simp [create_features, fillFrame, f, hp]

/-- C1 (amended): the Feature Builder's output has exactly K times (N + 2)
columns for K token columns and warm-up size N (N lags, one moving average
and one rate of change per token), and its row count EQUALS the Price
Matrix row count: create_features drops no rows, it resolves the warm-up
gaps by forward and backward fill, and the trimming of the first N rows
happens later, in train_model and predict. -/
theorem create_features_shape (data : Frame) (N : ℕ) :
    (create_features data N).colCount = data.colCount * (N + 2) ∧
    (create_features data N).rowCount = data.rowCount :=
  ⟨create_features_colCount data N, create_features_rowCount data N⟩

/-- C1 fails as stated: on a one-token, three-row frame with warm-up one,
create_features keeps all three rows instead of dropping the one warm-up
row. -/
theorem create_features_shape_cex :
    ¬((create_features frameA 1).rowCount = frameA.rowCount - 1) := by decide

/-- C4 (amended): when the warm-up size exceeds the available rows,
create_features raises no error (it is total) and its output is NOT empty —
the row count still equals the input row count, all K times (N + 2) columns
are present, and the output frame is empty exactly when the input frame
is. -/
theorem create_features_excess_warmup (data : Frame) (N : ℕ)
    (_h : data.rowCount < N) :
    (create_features data N).rowCount = data.rowCount ∧
    (create_features data N).colCount = data.colCount * (N + 2) ∧
    (create_features data N).isEmpty = data.isEmpty :=
  ⟨create_features_rowCount data N, create_features_colCount data N,
   create_features_isEmpty data N⟩

theorem create_features_excess_warmup_witness :
    frameA.rowCount < 5 ∧
    ((create_features frameA 5).rowCount = frameA.rowCount ∧
     (create_features frameA 5).colCount = frameA.colCount * (5 + 2) ∧
     (create_features frameA 5).isEmpty = frameA.isEmpty) :=
  ⟨by decide, create_features_excess_warmup frameA 5 (by decide)⟩

/-- C4 fails as stated: with three available rows and warm-up five, the
output of create_features is a non-empty frame (three rows, seven columns),
not an empty one. -/
theorem create_features_excess_warmup_cex :
    frameA.rowCount < 5 ∧ (create_features frameA 5).isEmpty = false := by decide

theorem ffillFrom_of_noGaps (c : Col) (h : ∀ x ∈ c, x ≠ none) :
    ∀ last, ffillFrom last c = c := by
  induction c with
  | nil => intro last; rfl
  | cons x rest ih =>
    intro last
    cases x with
    | none => exact absurd rfl (h none (List.mem_cons_self _ _))
    | some v =>
      rw [ffillFrom, ih fun y hy => h y (List.mem_cons_of_mem _ hy)]

/-- C5: the gap-resolution step of create_features (forward fill followed by
backward fill) returns an identical frame on any frame with zero missing
cells — the fill is idempotent on gap-free input. -/
theorem fillFrame_noGaps_id (f : Frame)
    (h : ∀ c ∈ f.cols, ∀ x ∈ c.2, x ≠ none) : fillFrame f = f := by
  rcases f with ⟨cols⟩
  rw [fillFrame, Frame.mk.injEq]
  induction cols with
  | nil => rfl
  | cons c rest ih =>
    have hc : ∀ x ∈ c.2, x ≠ none := h c (List.mem_cons_self _ _)
    have hcr : ∀ x ∈ c.2.reverse, x ≠ none := by
      intro x hx; exact hc x (List.mem_reverse.1 hx)
    have h1 : ffillCol c.2 = c.2 := ffillFrom_of_noGaps c.2 hc none
    have h2 : bfillCol c.2 = c.2 := by
      rw [bfillCol, ffillFrom_of_noGaps c.2.reverse hcr none, List.reverse_reverse]
    rw [List.map_cons, h1, h2]
    rw [ih fun d hd => h d (List.mem_cons_of_mem _ hd)]

theorem fillFrame_noGaps_id_witness :
    (∀ c ∈ frameFull.cols, ∀ x ∈ c.2, x ≠ none) ∧ fillFrame frameFull = frameFull :=
  ⟨by decide, fillFrame_noGaps_id frameFull (by decide)⟩

/-! Facts about the predict loop of scripts/random_forest.py. -/

theorem filterMap_guard_eq_map {α β : Type} (f : α → β) (p : α → Prop) [DecidablePred p]
    (l : List α) (h : ∀ x ∈ l, p x) :
    (l.filterMap fun x => if p x then some (f x) else none) = l.map f := by
  induction l with
  | nil => rfl
  | cons a t ih =>
    have hpa : p a := h a (List.mem_cons_self _ _)
    simp [List.filterMap_cons, hpa, ih fun x hx => h x (List.mem_cons_of_mem _ hx)]

/-- The in-loop guard of predict is always true on the loop range, so the
predictions list is exactly the model applied along the rows N to
rowCount − H − 1. -/
theorem predictions_eq_map (model : List Cell → ℚ) (scaler : List Cell → List Cell)
    (features : Frame) (N H : ℕ) :
    predictions model scaler features N H =
      ((List.range (features.rowCount - H)).drop N).map
        fun i => model (scaler (features.row i)) := by
  rw [predictions]
  refine filterMap_guard_eq_map _ (fun i => i + H < features.rowCount) _ fun i hi => ?_
  have h2 := List.mem_range.1 (List.mem_of_mem_drop hi)
  omega

theorem getLast?_drop_of_lt {α : Type} (l : List α) (N : ℕ) (h : N < l.length) :
    (l.drop N).getLast? = l.getLast? := by
  induction N generalizing l with
  | zero => rfl
  | succ n ih =>
    cases l with
    | nil => cases h
    | cons a t =>
      cases t with
      | nil =>
        exact absurd h (by simp)
      | cons b t' =>
        rw [List.drop_succ_cons,
          ih (b :: t') (by simp only [List.length_cons] at h ⊢; omega),
          List.getLast?_cons_cons]

theorem range_getLast? (T : ℕ) (h : 0 < T) : (List.range T).getLast? = some (T - 1) := by
  cases T with
  | zero => cases h
  | succ n => rw [List.range_succ, List.getLast?_concat]; rfl

/-- When the loop range of predict is non-empty, predict returns the model's
output on the scaled feature row at index rowCount − H − 1. -/
theorem predict_eq_last (model : List Cell → ℚ) (scaler : List Cell → List Cell)
    (features : Frame) (N H : ℕ) (h : N + H < features.rowCount) :
    predict model scaler features N H =
      Except.ok (model (scaler (features.row (features.rowCount - H - 1)))) := by
  unfold predict
  rw [predictions_eq_map, List.getLast?_map,
    getLast?_drop_of_lt _ _ (by rw [List.length_range]; omega),
    range_getLast? _ (by omega)]
  rfl

/-- C3: for a feature frame with more than N + H rows, the predict loop of
scripts/random_forest.py runs i from N up to rowCount − H (exclusive),
records a prediction for every such row — the guard i + H within bounds
holds throughout — and returns the last recorded prediction, the model's
output on the scaled feature row at index rowCount − H − 1. -/
theorem predict_contract (model : List Cell → ℚ) (scaler : List Cell → List Cell)
    (features : Frame) (N H : ℕ) (h : N + H < features.rowCount) :
    predictions model scaler features N H =
      ((List.range (features.rowCount - H)).drop N).map
        (fun i => model (scaler (features.row i))) ∧
    predict model scaler features N H =
      Except.ok (model (scaler (features.row (features.rowCount - H - 1)))) :=
  ⟨predictions_eq_map model scaler features N H, predict_eq_last model scaler features N H h⟩

theorem predict_contract_witness :
    1 + 1 < frameA.rowCount ∧
    (predictions modelSum id frameA 1 1 =
      ((List.range (frameA.rowCount - 1)).drop 1).map
        (fun i => modelSum (id (frameA.row i))) ∧
     predict modelSum id frameA 1 1 =
      Except.ok (modelSum (id (frameA.row (frameA.rowCount - 1 - 1))))) :=
  ⟨by decide, predict_contract modelSum id frameA 1 1 (by decide)⟩

/-- C2 (amended): the horizon is not a model input — every horizon reuses
the identical model and scaler, and horizons differ only in which
predictions the loop records — but the RETURNED value does depend on the
horizon: it is the prediction at row rowCount − H − 1, so two horizons
return the same value when those last-considered rows carry equal features,
and in general return different values. -/
theorem predict_horizon_dependence (model : List Cell → ℚ) (scaler : List Cell → List Cell)
    (features : Frame) (N H₁ H₂ : ℕ)
    (h₁ : N + H₁ < features.rowCount) (h₂ : N + H₂ < features.rowCount) :
    predict model scaler features N H₁ =
      Except.ok (model (scaler (features.row (features.rowCount - H₁ - 1)))) ∧
    predict model scaler features N H₂ =
      Except.ok (model (scaler (features.row (features.rowCount - H₂ - 1)))) ∧
    (features.row (features.rowCount - H₁ - 1) = features.row (features.rowCount - H₂ - 1) →
      predict model scaler features N H₁ = predict model scaler features N H₂) := by
  refine ⟨predict_eq_last _ _ _ _ _ h₁, predict_eq_last _ _ _ _ _ h₂, fun he => ?_⟩
  rw [predict_eq_last _ _ _ _ _ h₁, predict_eq_last _ _ _ _ _ h₂, he]

/-- C2 fails as stated: on a four-row frame both horizon one and horizon two
leave the prediction loop non-empty, yet predict returns different values
for them (the last prediction sits at a different row). -/
theorem predict_horizon_cex :
    0 + 1 < frame4.rowCount ∧ 0 + 2 < frame4.rowCount ∧
    predict modelSum id frame4 0 1 ≠ predict modelSum id frame4 0 2 := by decide

theorem predict_horizon_dependence_witness :
    (0 + 1 < frame4.rowCount ∧ 0 + 2 < frame4.rowCount) ∧
    (predict modelSum id frame4 0 1 =
      Except.ok (modelSum (id (frame4.row (frame4.rowCount - 1 - 1)))) ∧
     predict modelSum id frame4 0 2 =
      Except.ok (modelSum (id (frame4.row (frame4.rowCount - 2 - 1)))) ∧
     (frame4.row (frame4.rowCount - 1 - 1) = frame4.row (frame4.rowCount - 2 - 1) →
      predict modelSum id frame4 0 1 = predict modelSum id frame4 0 2)) :=
  ⟨⟨by decide, by decide⟩,
   predict_horizon_dependence modelSum id frame4 0 1 2 (by decide) (by decide)⟩

/-- C10: when the feature frame has at most N + H rows, the prediction list
stays empty and the final element access of predict raises IndexError
instead of returning a value; and the in-loop bounds guard i + H within
bounds holds for every i the loop range produces, so it never filters out a
row. -/
theorem predict_short_input (model : List Cell → ℚ) (scaler : List Cell → List Cell)
    (features : Frame) (N H : ℕ) :
    (features.rowCount ≤ N + H →
      predictions model scaler features N H = [] ∧
      predict model scaler features N H =
        Except.error "IndexError: list index out of range") ∧
    ∀ i ∈ (List.range (features.rowCount - H)).drop N, i + H < features.rowCount := by
  constructor
  · intro h
    have hp : predictions model scaler features N H = [] := by
      rw [predictions_eq_map,
        List.drop_eq_nil_of_le (by rw [List.length_range]; omega), List.map_nil]
    refine ⟨hp, ?_⟩
    unfold predict
    rw [hp]
    rfl
  · intro i hi
    have h2 := List.mem_range.1 (List.mem_of_mem_drop hi)
    omega

theorem predict_short_input_witness :
    predictions modelSum id frameA 1 2 = [] ∧
    predict modelSum id frameA 1 2 = Except.error "IndexError: list index out of range" :=
  (predict_short_input modelSum id frameA 1 2).1 (by decide)

/-! The LSTM pipeline: the empty-frame guard, the missing-token error path
and the unpack failure. -/

/-- The only error prepare_dataset can raise is the missing-token
KeyError. -/
theorem prepare_dataset_error_kind (data : Frame) (look_back future_minutes : ℕ)
    (token : String) (e : PyErr)
    (h : prepare_dataset data look_back future_minutes token = Except.error e) :
    e = PyErr.keyError token := by
  rcases hf : data.cols.find? fun c => c.1 == token with _ | tcol
  · by_cases hn : data.rowCount - look_back - future_minutes * 6 = 0
    · simp [prepare_dataset, hf, hn] at h
    · simp only [prepare_dataset, hf, if_neg hn] at h
      cases h
      rfl
  · simp [prepare_dataset, hf] at h

/-- prepare_dataset returns (rather than raising KeyError) whenever the
token is among the columns, or the window loop range is empty so that the
target access never runs. -/
theorem prepare_dataset_ok (data : Frame) (look_back future_minutes : ℕ) (token : String)
    (h : (∃ c ∈ data.cols, c.1 = token) ∨
      data.rowCount - look_back - future_minutes * 6 = 0) :
    ∃ XY, prepare_dataset data look_back future_minutes token = Except.ok XY := by
  rcases hf : data.cols.find? fun c => c.1 == token with _ | tcol
  · rcases h with h1 | h2
    · obtain ⟨c, hc, hname⟩ := h1
      have h3 := List.find?_eq_none.1 hf c hc
      rw [hname] at h3
      simp at h3
    · refine ⟨([], []), ?_⟩
      simp [prepare_dataset, hf, h2]
  · exact ⟨((List.range (data.rowCount - look_back - future_minutes * 6)).map fun i =>
        (List.range look_back).map fun j => data.row (i + j),
      (List.range (data.rowCount - look_back - future_minutes * 6)).map fun i =>
        tcol.2.getD (i + look_back + future_minutes * 6) none),
      by simp [prepare_dataset, hf]⟩

theorem minmaxTransform_rowCount (data : Frame) :
    (minmaxTransform data).rowCount = data.rowCount := by
  rcases data with ⟨cols⟩
  cases cols with
  | nil => rfl
  | cons c rest => simp [minmaxTransform, Frame.rowCount]

/-- Scaling keeps every column name. -/
theorem minmaxTransform_names (data : Frame) (token : String)
    (h : ∃ c ∈ data.cols, c.1 = token) :
    ∃ c ∈ (minmaxTransform data).cols, c.1 = token := by
  obtain ⟨c, hc, hname⟩ := h
  exact ⟨(c.1, c.2.map (scaleCell (colMin c.2) (colMax c.2))),
    List.mem_map.2 ⟨c, hc, rfl⟩, hname⟩

/-- Every error of preprocess_data is the explicit empty-frame ValueError
(exactly on an empty frame) or the implicit missing-token KeyError
propagated out of prepare_dataset (only on a non-empty frame). -/
theorem preprocess_error_cases (data : Frame) (look_back future_minutes : ℕ)
    (token : String) (e : PyErr)
    (h : preprocess_data data look_back future_minutes token = Except.error e) :
    (data.isEmpty = true ∧ e = PyErr.valueError
      "The input data frame is empty. Please check if the data is loaded correctly.") ∨
    (data.isEmpty = false ∧ e = PyErr.keyError token) := by
  by_cases he : data.isEmpty = true
  · left
    refine ⟨he, ?_⟩
    rw [preprocess_data, if_pos he] at h
    cases h
    rfl
  · right
    rw [Bool.not_eq_true] at he
    refine ⟨he, ?_⟩
    simp only [preprocess_data, he, Bool.false_eq_true, if_false] at h
    cases hp : prepare_dataset (minmaxTransform data) look_back future_minutes token with
    | error e2 =>
      rw [hp] at h
      cases h
      exact prepare_dataset_error_kind _ _ _ _ _ hp
    | ok XY =>
      rw [hp] at h
      cases h

/-- C7: preprocess_data of scripts/lstm.py raises its explicit ValueError
exactly when the input frame is empty: the check-and-raise is the first
step, before the scaling and the dataset construction, it carries the
empty-frame message, and it is the only explicit error guard in the
pipeline — the sole other failure preprocess_data can propagate is the
implicit missing-token KeyError of the dataset loop, which is not a
ValueError. -/
theorem preprocess_empty_guard (data : Frame) (look_back future_minutes : ℕ)
    (token : String) :
    ((∃ msg, preprocess_data data look_back future_minutes token
        = Except.error (PyErr.valueError msg)) ↔ data.isEmpty = true) ∧
    (data.isEmpty = true →
      preprocess_data data look_back future_minutes token =
        Except.error (PyErr.valueError
          "The input data frame is empty. Please check if the data is loaded correctly.")) ∧
    (∀ e, preprocess_data data look_back future_minutes token = Except.error e →
      e = PyErr.valueError
        "The input data frame is empty. Please check if the data is loaded correctly." ∨
      e = PyErr.keyError token) := by
  have hback : data.isEmpty = true →
      preprocess_data data look_back future_minutes token =
        Except.error (PyErr.valueError
          "The input data frame is empty. Please check if the data is loaded correctly.") := by
    intro he
    simp [preprocess_data, he]
  refine ⟨⟨?_, fun he => ⟨_, hback he⟩⟩, hback, ?_⟩
  · rintro ⟨msg, hmsg⟩
    rcases preprocess_error_cases _ _ _ _ _ hmsg with ⟨he, _⟩ | ⟨_, hk⟩
    · exact he
    · cases hk
  · intro e he2
    rcases preprocess_error_cases _ _ _ _ _ he2 with ⟨_, h1⟩ | ⟨_, h2⟩
    · exact Or.inl h1
    · exact Or.inr h2

/-- C9 (amended): for every data frame that passes the empty-frame guard
and does not first hit the missing-token KeyError of prepare_dataset —
the designated token is among the columns, or the window loop range is
empty so the target access never runs — both the train and the predict
branches of the LSTM script's main block fail with a tuple-unpacking
ValueError before any model is fitted or any prediction is produced:
preprocess_data returns five values and both call sites unpack exactly
three. -/
theorem lstm_main_unpack_error (data : Frame) (look_back future_minutes : ℕ)
    (token : String) (model : List (List Cell) → ℚ)
    (h : data.isEmpty = false)
    (htok : (∃ c ∈ data.cols, c.1 = token) ∨
      data.rowCount - look_back - future_minutes * 6 = 0) :
    lstm_main "train" data look_back future_minutes token model =
      Except.error (PyErr.valueError "too many values to unpack (expected 3)") ∧
    lstm_main "predict" data look_back future_minutes token model =
      Except.error (PyErr.valueError "too many values to unpack (expected 3)") := by
  have htok2 : (∃ c ∈ (minmaxTransform data).cols, c.1 = token) ∨
      (minmaxTransform data).rowCount - look_back - future_minutes * 6 = 0 := by
    rcases htok with h1 | h2
    · exact Or.inl (minmaxTransform_names data token h1)
    · rw [minmaxTransform_rowCount]
      exact Or.inr h2
  obtain ⟨XY, hXY⟩ := prepare_dataset_ok _ look_back future_minutes token htok2
  constructor <;> simp [lstm_main, preprocess_data, h, hXY, unpack3]

/-- C9 fails as stated: on a non-empty three-row frame whose only column is
named A, run with token ETH (the script default) and a non-empty window
loop, the missing-token access of prepare_dataset raises KeyError inside
preprocess_data before the five-value tuple is ever returned, so the train
branch errors with KeyError and not with the tuple-unpacking ValueError. -/
theorem lstm_main_unpack_error_cex :
    frameA.isEmpty = false ∧
    lstm_main "train" frameA 1 0 "ETH" (fun _ => 0) =
      Except.error (PyErr.keyError "ETH") ∧
    lstm_main "train" frameA 1 0 "ETH" (fun _ => 0) ≠
      Except.error (PyErr.valueError "too many values to unpack (expected 3)") := by
  decide

theorem lstm_main_unpack_error_witness :
    (frameA.isEmpty = false ∧
      ((∃ c ∈ frameA.cols, c.1 = "A") ∨ frameA.rowCount - 1 - 0 * 6 = 0)) ∧
    (lstm_main "train" frameA 1 0 "A" (fun _ => 0) =
      Except.error (PyErr.valueError "too many values to unpack (expected 3)") ∧
     lstm_main "predict" frameA 1 0 "A" (fun _ => 0) =
      Except.error (PyErr.valueError "too many values to unpack (expected 3)")) :=
  ⟨⟨by decide, by decide⟩,
   lstm_main_unpack_error frameA 1 0 "A" (fun _ => 0) (by decide) (by decide)⟩

/-! The data loader. -/

theorem chain'_succ_range' (s n : ℕ) :
    List.Chain' (fun a b => b = a + 1) (List.range' s n) := by
  induction n generalizing s with
  | zero => exact List.chain'_nil
  | succ k ih =>
    rw [List.range'_succ]
    refine List.chain'_cons'.2 ⟨?_, ih (s + 1)⟩
    intro b hb
    cases k with
    | zero => cases hb
    | succ m =>
      rw [List.range'_succ] at hb
      cases hb
      rfl

theorem gridOf_chain' (l : List PriceDoc) :
    List.Chain' (fun a b => b = a + 1) (gridOf l) := by
  unfold gridOf
  split
  · exact List.chain'_nil
  · exact chain'_succ_range' _ _

/-- C6: the loader's selection holds exactly the documents whose trader
name is the fixed agent identifier with timestamp at least now minus the
window; they are sorted ascending by timestamp (a permutation of the
selection); the output frame has one column per distinct token name seen;
its index is a uniform one-second grid (consecutive seconds); and each
column is the linear interpolation of that token's observations along the
grid.  The two hypotheses confine the statement to inputs on which the
Python loader returns at all: a non-empty selection and no duplicate
timestamp-token pair (otherwise the pandas pivot or column access
raises, as the spec acknowledges). -/
theorem load_data_spec (docs : List PriceDoc) (now : ℤ) (past_minutes : ℕ)
    (_hne : selectDocs docs now past_minutes ≠ [])
    (_hnd : ((selectDocs docs now past_minutes).map
      fun d => (d.price_point.timestamp, d.token_name)).Nodup) :
    (∀ d, d ∈ selectDocs docs now past_minutes ↔
        d ∈ docs ∧ d.trader_name = "BSC-AlgoTrader" ∧
          now - 60 * past_minutes ≤ (d.price_point.timestamp : ℤ)) ∧
    (sortDocs (selectDocs docs now past_minutes)).Sorted tsLE ∧
    (sortDocs (selectDocs docs now past_minutes)).Perm (selectDocs docs now past_minutes) ∧
    ((load_data_from_mongodb docs now past_minutes).cols.map Prod.fst).Nodup ∧
    (∀ tok, tok ∈ (load_data_from_mongodb docs now past_minutes).cols.map Prod.fst ↔
        ∃ d ∈ selectDocs docs now past_minutes, d.token_name = tok) ∧
    List.Chain' (fun a b => b = a + 1)
      (gridOf (sortDocs (selectDocs docs now past_minutes))) ∧
    (∀ c ∈ (load_data_from_mongodb docs now past_minutes).cols,
        c.2 = (gridOf (sortDocs (selectDocs docs now past_minutes))).map
          (interpAt (obsOf (sortDocs (selectDocs docs now past_minutes)) c.1))) := by
  refine ⟨?_, List.sorted_insertionSort tsLE _, List.perm_insertionSort tsLE _,
    ?_, ?_, gridOf_chain' _, ?_⟩
  · intro d
    simp [selectDocs, List.mem_filter, and_assoc]
  · have : (load_data_from_mongodb docs now past_minutes).cols.map Prod.fst
        = tokenColumns (sortDocs (selectDocs docs now past_minutes)) := by
      simp only [load_data_from_mongodb, List.map_map]
      exact Eq.trans (List.map_congr_left fun tok _ => rfl) (List.map_id _)
    rw [this]
    exact List.nodup_dedup _
  · intro tok
    have : (load_data_from_mongodb docs now past_minutes).cols.map Prod.fst
        = tokenColumns (sortDocs (selectDocs docs now past_minutes)) := by
      simp only [load_data_from_mongodb, List.map_map]
      exact Eq.trans (List.map_congr_left fun tok _ => rfl) (List.map_id _)
    rw [this, tokenColumns]
    rw [List.mem_dedup, List.mem_map]
    constructor
    · rintro ⟨d, hd, rfl⟩
      exact ⟨d, (List.perm_insertionSort tsLE _).mem_iff.1 hd, rfl⟩
    · rintro ⟨d, hd, rfl⟩
      exact ⟨d, (List.perm_insertionSort tsLE _).mem_iff.2 hd, rfl⟩
  · intro c hc
    simp only [load_data_from_mongodb, List.mem_map] at hc
    obtain ⟨tok, _, rfl⟩ := hc
    rfl

theorem load_data_spec_witness :
    (selectDocs docsW 1060 1 ≠ [] ∧
      ((selectDocs docsW 1060 1).map
        fun d => (d.price_point.timestamp, d.token_name)).Nodup) ∧
    (sortDocs (selectDocs docsW 1060 1)).Sorted tsLE :=
  ⟨⟨by decide, by decide⟩,
   (load_data_spec docsW 1060 1 (by decide) (by decide)).2.1⟩

/-! The encryption tool: base64, CBC and padding facts. -/

theorem b64Val_b64Char : ∀ n, n < 64 → b64Val (b64Char n) = n := by decide

theorem b64Char_ne_pad : ∀ n, n < 64 → b64Char n ≠ '=' := by decide

theorem b64_roundtrip : ∀ b : Bytes, (∀ x ∈ b, x < 256) → b64decode (b64encode b) = b := by
  intro b
  induction b using b64encode.induct with
  | case1 => intro _; rfl
  | case2 a =>
    intro h
    have ha : a < 256 := h a (by simp)
    rw [b64encode, b64decode, if_pos rfl,
      b64Val_b64Char _ (by omega), b64Val_b64Char _ (by omega)]
    simp only [List.cons.injEq, and_true]
    omega
  | case3 a b =>
    intro h
    have ha : a < 256 := h a (by simp)
    have hb : b < 256 := h b (by simp)
    rw [b64encode, b64decode, if_neg (b64Char_ne_pad _ (by omega)), if_pos rfl,
      b64Val_b64Char _ (by omega), b64Val_b64Char _ (by omega),
      b64Val_b64Char _ (by omega)]
    simp only [List.cons.injEq, and_true]
    omega
  | case4 a b c rest ih =>
    intro h
    have ha : a < 256 := h a (by simp)
    have hb : b < 256 := h b (by simp)
    have hc : c < 256 := h c (by simp)
    rw [b64encode, b64decode, if_neg (b64Char_ne_pad _ (by omega)),
      if_neg (b64Char_ne_pad _ (by omega)),
      b64Val_b64Char _ (by omega), b64Val_b64Char _ (by omega),
      b64Val_b64Char _ (by omega), b64Val_b64Char _ (by omega),
      ih fun x hx => h x (by simp [hx])]
    simp only [List.cons.injEq, and_true]
    omega

theorem xorBytes_length (a b : Bytes) : (xorBytes a b).length = min a.length b.length := by
  simp [xorBytes]

theorem xorBytes_cancel : ∀ a b : Bytes, a.length = b.length →
    xorBytes a (xorBytes a b) = b := by
  intro a
  induction a with
  | nil =>
    intro b hb
    cases b with
    | nil => rfl
    | cons y s => cases hb
  | cons x t ih =>
    intro b hb
    cases b with
    | nil => cases hb
    | cons y s =>
      simp only [xorBytes, List.zipWith_cons_cons, Nat.xor_cancel_left, List.cons.injEq,
        true_and]
      exact ih s (by simpa using hb)

theorem xorBytes_lt : ∀ a b : Bytes, (∀ x ∈ a, x < 256) → (∀ x ∈ b, x < 256) →
    ∀ x ∈ xorBytes a b, x < 256 := by
  intro a
  induction a with
  | nil => intro b _ _ x hx; cases hx
  | cons u t ih =>
    intro b ha hb x hx
    cases b with
    | nil => cases hx
    | cons v s =>
      rcases List.mem_cons.1 hx with h1 | h2
      · subst h1
        have hu : u < 2 ^ 8 := ha u (List.mem_cons_self _ _)
        have hv : v < 2 ^ 8 := hb v (List.mem_cons_self _ _)
        exact Nat.xor_lt_two_pow hu hv
      · exact ih s (fun y hy => ha y (List.mem_cons_of_mem _ hy))
          (fun y hy => hb y (List.mem_cons_of_mem _ hy)) x h2

theorem cbcEnc_blocks (E : Bytes → Bytes)
    (hE : ∀ b, b.length = blockSize → (E b).length = blockSize)
    (hE256 : ∀ b, b.length = blockSize → (∀ x ∈ b, x < 256) → ∀ x ∈ E b, x < 256) :
    ∀ (ps : List Bytes) (iv : Bytes), iv.length = blockSize → (∀ x ∈ iv, x < 256) →
      (∀ p ∈ ps, p.length = blockSize ∧ ∀ x ∈ p, x < 256) →
      ∀ c ∈ cbcEnc E iv ps, c.length = blockSize ∧ ∀ x ∈ c, x < 256 := by
  intro ps
  induction ps with
  | nil => intro iv _ _ _ c hc; cases hc
  | cons p rest ih =>
    intro iv hiv hiv2 hps c hc
    have hp := hps p (List.mem_cons_self _ _)
    have hxlen : (xorBytes iv p).length = blockSize := by
      rw [xorBytes_length, hiv, hp.1]; exact Nat.min_self _
    have hx256 : ∀ x ∈ xorBytes iv p, x < 256 := xorBytes_lt iv p hiv2 hp.2
    have hclen : (E (xorBytes iv p)).length = blockSize := hE _ hxlen
    have hc256 : ∀ x ∈ E (xorBytes iv p), x < 256 := hE256 _ hxlen hx256
    rcases List.mem_cons.1 hc with h1 | h2
    · subst h1; exact ⟨hclen, hc256⟩
    · exact ih (E (xorBytes iv p)) hclen hc256
        (fun q hq => hps q (List.mem_cons_of_mem _ hq)) c h2

theorem cbcDec_cbcEnc (E D : Bytes → Bytes)
    (hED : ∀ b, b.length = blockSize → D (E b) = b)
    (hE : ∀ b, b.length = blockSize → (E b).length = blockSize) :
    ∀ (ps : List Bytes) (iv : Bytes), iv.length = blockSize →
      (∀ p ∈ ps, p.length = blockSize) →
      cbcDec D iv (cbcEnc E iv ps) = ps := by
  intro ps
  induction ps with
  | nil => intro iv _ _; rfl
  | cons p rest ih =>
    intro iv hiv hps
    have hp : p.length = blockSize := hps p (List.mem_cons_self _ _)
    have hxlen : (xorBytes iv p).length = blockSize := by
      rw [xorBytes_length, hiv, hp]; exact Nat.min_self _
    simp only [cbcEnc, cbcDec, List.cons.injEq]
    rw [hED _ hxlen]
    exact ⟨xorBytes_cancel iv p (by rw [hiv, hp]),
      ih (E (xorBytes iv p)) (hE _ hxlen)
        (fun q hq => hps q (List.mem_cons_of_mem _ hq))⟩

theorem chunksAux_flatten : ∀ (fuel : ℕ) (b : Bytes), b.length ≤ fuel →
    (chunksAux fuel b).flatten = b := by
  intro fuel
  induction fuel with
  | zero =>
    intro b hb
    have : b = [] := List.eq_nil_of_length_eq_zero (Nat.le_zero.1 hb)
    subst this; rfl
  | succ n ih =>
    intro b hb
    rw [chunksAux]
    by_cases hbe : b.isEmpty = true
    · rw [if_pos hbe]
      have : b = [] := List.isEmpty_iff.1 hbe
      subst this; rfl
    · rw [if_neg hbe]
      have hlen : b.length ≠ 0 := by
        cases b with
        | nil => exact absurd rfl hbe
        | cons x t => simp
      rw [List.flatten_cons, ih (b.drop blockSize)
        (by have hbs : blockSize = 16 := rfl; rw [List.length_drop]; omega)]
      exact List.take_append_drop blockSize b

theorem chunks_flatten (b : Bytes) : (chunks b).flatten = b :=
  chunksAux_flatten b.length b le_rfl

theorem chunksAux_blocks : ∀ (fuel : ℕ) (b : Bytes), b.length ≤ fuel →
    blockSize ∣ b.length → ∀ x ∈ chunksAux fuel b, x.length = blockSize := by
  intro fuel
  induction fuel with
  | zero => intro b _ _ x hx; cases hx
  | succ n ih =>
    intro b hb hdvd x hx
    rw [chunksAux] at hx
    by_cases hbe : b.isEmpty = true
    · rw [if_pos hbe] at hx; cases hx
    · rw [if_neg hbe] at hx
      have hlen : b.length ≠ 0 := by
        cases b with
        | nil => exact absurd rfl hbe
        | cons y t => simp
      have hbs : blockSize = 16 := rfl
      have h16 : blockSize ≤ b.length := by
        rcases hdvd with ⟨k, hk⟩
        have hk0 : k ≠ 0 := by rintro rfl; simp [hk] at hlen
        have : blockSize * 1 ≤ blockSize * k := Nat.mul_le_mul_left _ (by omega)
        omega
      rcases List.mem_cons.1 hx with h1 | h2
      · subst h1
        rw [List.length_take]
        omega
      · refine ih (b.drop blockSize) (by rw [List.length_drop]; omega) ?_ x h2
        rw [List.length_drop]
        exact Nat.dvd_sub' hdvd dvd_rfl

theorem chunks_blocks (b : Bytes) (h : blockSize ∣ b.length) :
    ∀ x ∈ chunks b, x.length = blockSize :=
  chunksAux_blocks b.length b le_rfl h

theorem chunksAux_subset : ∀ (fuel : ℕ) (b : Bytes), ∀ x ∈ chunksAux fuel b, ∀ y ∈ x, y ∈ b := by
  intro fuel
  induction fuel with
  | zero => intro b x hx; cases hx
  | succ n ih =>
    intro b x hx y hy
    rw [chunksAux] at hx
    by_cases hbe : b.isEmpty = true
    · rw [if_pos hbe] at hx; cases hx
    · rw [if_neg hbe] at hx
      rcases List.mem_cons.1 hx with h1 | h2
      · subst h1; exact List.take_subset _ _ hy
      · exact List.drop_subset _ _ (ih (b.drop blockSize) x h2 y hy)

theorem chunks_subset (b : Bytes) : ∀ x ∈ chunks b, ∀ y ∈ x, y ∈ b :=
  chunksAux_subset b.length b

theorem chunksAux_of_blocks : ∀ (bs : List Bytes) (fuel : ℕ),
    (∀ x ∈ bs, x.length = blockSize) → bs.flatten.length ≤ fuel →
    chunksAux fuel bs.flatten = bs := by
  intro bs
  induction bs with
  | nil => intro fuel _ _; cases fuel <;> simp [chunksAux]
  | cons x rest ih =>
    intro fuel hb hf
    have hx : x.length = blockSize := hb x (List.mem_cons_self _ _)
    cases fuel with
    | zero =>
      exfalso
      rw [List.flatten_cons, List.length_append, hx] at hf
      simp [blockSize] at hf
    | succ n =>
      rw [List.flatten_cons, chunksAux, if_neg ?_, ← hx, List.take_left, List.drop_left]
      · rw [ih n (fun q hq => hb q (List.mem_cons_of_mem _ hq)) ?_]
        rw [List.flatten_cons, List.length_append, hx] at hf
        have hbs : blockSize = 16 := rfl
        omega
      · intro hcontra
        have : (x ++ rest.flatten).length = 0 := by
          rw [List.isEmpty_iff.1 hcontra]; rfl
        rw [List.length_append, hx] at this
        have hbs : blockSize = 16 := rfl
        omega

theorem chunks_of_blocks (bs : List Bytes) (h : ∀ x ∈ bs, x.length = blockSize) :
    chunks bs.flatten = bs :=
  chunksAux_of_blocks bs bs.flatten.length h le_rfl

theorem pad_length_dvd (b : Bytes) : blockSize ∣ (pad b).length := by
  show 16 ∣ (pad b).length
  have : (pad b).length = b.length + (16 - b.length % 16) := by
    simp [pad, blockSize]
  rw [this]
  omega

theorem pad_lt (b : Bytes) (h : ∀ x ∈ b, x < 256) : ∀ x ∈ pad b, x < 256 := by
  intro x hx
  rcases List.mem_append.1 hx with h1 | h2
  · exact h x h1
  · have := List.eq_of_mem_replicate h2
    subst this
    show blockSize - b.length % blockSize < 256
    show 16 - b.length % 16 < 256
    omega

theorem replicate_eq_append_last {α : Type} (n : ℕ) (a : α) (h : 1 ≤ n) :
    List.replicate n a = List.replicate (n - 1) a ++ [a] := by
  cases n with
  | zero => cases h
  | succ m => rw [List.replicate_succ']; rfl

theorem unpad_pad (b : Bytes) : unpad (pad b) = some b := by
  have hbs : blockSize = 16 := rfl
  have hp1 : 1 ≤ blockSize - b.length % blockSize := by
    show 1 ≤ 16 - b.length % 16; omega
  have hp16 : blockSize - b.length % blockSize ≤ blockSize := by
    show 16 - b.length % 16 ≤ 16; omega
  have hpad : pad b
      = (b ++ List.replicate (blockSize - b.length % blockSize - 1)
          (blockSize - b.length % blockSize))
        ++ [blockSize - b.length % blockSize] := by
    rw [pad, replicate_eq_append_last _ _ hp1, List.append_assoc]
  have hlen : (pad b).length = b.length + (blockSize - b.length % blockSize) := by
    rw [pad, List.length_append, List.length_replicate]
  have hidx : (pad b).length - (blockSize - b.length % blockSize) = b.length := by
    rw [hlen]
    show b.length + (16 - b.length % 16) - (16 - b.length % 16) = b.length
    omega
  have hdrop : (pad b).drop b.length
      = List.replicate (blockSize - b.length % blockSize)
          (blockSize - b.length % blockSize) := by
    rw [pad]; exact List.drop_left _ _
  have htake : (pad b).take b.length = b := by
    rw [pad]; exact List.take_left _ _
  have hcond : 1 ≤ blockSize - b.length % blockSize ∧
      blockSize - b.length % blockSize ≤ blockSize ∧
      blockSize - b.length % blockSize ≤ (pad b).length ∧
      ∀ x ∈ (pad b).drop ((pad b).length - (blockSize - b.length % blockSize)),
        x = blockSize - b.length % blockSize := by
    refine ⟨hp1, hp16, ?_, ?_⟩
    · rw [hlen]
      show 16 - b.length % 16 ≤ b.length + (16 - b.length % 16)
      omega
    · intro x hx
      rw [hidx, hdrop] at hx
      exact List.eq_of_mem_replicate hx
  have hgl : (pad b).getLast? = some (blockSize - b.length % blockSize) := by
    rw [hpad]; exact List.getLast?_concat _
  rw [unpad, hgl]
  show (if 1 ≤ blockSize - b.length % blockSize ∧
      blockSize - b.length % blockSize ≤ blockSize ∧
      blockSize - b.length % blockSize ≤ (pad b).length ∧
      ∀ x ∈ (pad b).drop ((pad b).length - (blockSize - b.length % blockSize)),
        x = blockSize - b.length % blockSize
    then some ((pad b).take ((pad b).length - (blockSize - b.length % blockSize)))
    else none) = some b
  rw [if_pos hcond, hidx, htake]

/-- C8: the encryption tool prints the base64 encoding of the initialization
vector followed by the CBC encryption of the padded payload; base64-decoding
that output, splitting off the first block as the initialization vector,
CBC-decrypting the rest under the same key and unpadding recovers the
payload exactly; and two encryptions under the same key with distinct
initialization vectors print distinct outputs.  The AES block permutation
for the (valid-length) key is abstract: E enciphers one block, D deciphers
it, and the hypotheses say exactly that E and D are a block-size-preserving,
byte-valued inverse pair. -/
theorem cipher_spec (E D : Bytes → Bytes) (iv data : Bytes)
    (hED : ∀ b, b.length = blockSize → D (E b) = b)
    (hE : ∀ b, b.length = blockSize → (E b).length = blockSize)
    (hE256 : ∀ b, b.length = blockSize → (∀ x ∈ b, x < 256) → ∀ x ∈ E b, x < 256)
    (hiv : iv.length = blockSize) (hiv256 : ∀ x ∈ iv, x < 256)
    (hdata : ∀ x ∈ data, x < 256) :
    cipherOutput E iv data =
      b64encode (iv ++ (cbcEnc E iv (chunks (pad data))).flatten) ∧
    decryptOutput D (cipherOutput E iv data) = some data ∧
    (∀ iv2, iv2.length = blockSize → (∀ x ∈ iv2, x < 256) → iv2 ≠ iv →
      cipherOutput E iv2 data ≠ cipherOutput E iv data) := by
  have pblocks : ∀ p ∈ chunks (pad data), p.length = blockSize :=
    chunks_blocks _ (pad_length_dvd data)
  have pbytes : ∀ p ∈ chunks (pad data), ∀ x ∈ p, x < 256 := fun p hp x hx =>
    pad_lt data hdata x (chunks_subset _ p hp x hx)
  have ctfacts : ∀ iv0 : Bytes, iv0.length = blockSize → (∀ x ∈ iv0, x < 256) →
      ∀ x ∈ (cbcEnc E iv0 (chunks (pad data))).flatten, x < 256 := by
    intro iv0 h0 h0b x hx
    obtain ⟨l, hl, hxl⟩ := List.mem_flatten.1 hx
    exact (cbcEnc_blocks E hE hE256 (chunks (pad data)) iv0 h0 h0b
      (fun p hp => ⟨pblocks p hp, pbytes p hp⟩) l hl).2 x hxl
  have outbytes : ∀ iv0 : Bytes, iv0.length = blockSize → (∀ x ∈ iv0, x < 256) →
      ∀ x ∈ iv0 ++ (cbcEnc E iv0 (chunks (pad data))).flatten, x < 256 := by
    intro iv0 h0 h0b x hx
    rcases List.mem_append.1 hx with h1 | h2
    · exact h0b x h1
    · exact ctfacts iv0 h0 h0b x h2
  refine ⟨rfl, ?_, ?_⟩
  · rw [cipherOutput, decryptOutput, b64_roundtrip _ (outbytes iv hiv hiv256),
      ← hiv, List.take_left, List.drop_left]
    rw [chunks_of_blocks _ (fun c hc =>
      (cbcEnc_blocks E hE hE256 (chunks (pad data)) iv hiv hiv256
        (fun p hp => ⟨pblocks p hp, pbytes p hp⟩) c hc).1)]
    rw [cbcDec_cbcEnc E D hED hE (chunks (pad data)) iv hiv pblocks,
      chunks_flatten, unpad_pad]
  · intro iv2 h2l h2b hne heq
    rw [cipherOutput, cipherOutput] at heq
    have hdec := congrArg b64decode heq
    rw [b64_roundtrip _ (outbytes iv2 h2l h2b),
      b64_roundtrip _ (outbytes iv hiv hiv256)] at hdec
    have htake := congrArg (List.take blockSize) hdec
    rw [← h2l] at htake
    rw [List.take_left] at htake
    rw [h2l, ← hiv, List.take_left] at htake
    exact hne htake

theorem cipher_spec_witness :
    decryptOutput id (cipherOutput id ivZero [1, 2, 3]) = some [1, 2, 3] ∧
    cipherOutput id ivOne [1, 2, 3] ≠ cipherOutput id ivZero [1, 2, 3] :=
  ⟨(cipher_spec id id ivZero [1, 2, 3] (fun _ _ => rfl) (fun _ h => h)
      (fun _ _ h => h) (by decide) (by decide) (by decide)).2.1,
   (cipher_spec id id ivZero [1, 2, 3] (fun _ _ => rfl) (fun _ h => h)
      (fun _ _ h => h) (by decide) (by decide) (by decide)).2.2 ivOne
      (by decide) (by decide) (by decide)⟩

end Debot
